import Mathlib

/-!
# Verification of the liqubit-dao data-acquisition layer

Shallow embedding of the TypeScript sources of the `liqubit-dao` repository:
the TTL cache (`CacheManager`), the per-provider `RateLimiter`, the retry
executor (`fetchWithRetry`), response validation (`validateResponse`) and the
aggregators (`MarketDataAggregator.fetchTokenData`,
`EnhancedMarketDataAggregator.aggregateData`).

Conventions of the embedding:
* JavaScript `Date.now()` values are modelled as explicit time parameters
  (`Int` for the cache, `Nat` for the rate limiter); each embedded operation
  receives the instant at which it runs.
* A JavaScript `Map` is modelled as an association list in insertion order:
  `Map.set` on an existing key updates the entry in place, on a fresh key it
  appends; `Map.delete` removes the entry; iteration is list order.  This is
  exactly the iteration contract of a JavaScript `Map`.
* Thrown exceptions are modelled with `Except`; a function that cannot throw
  returns its value directly.
* JavaScript runtime values (for truthiness checks such as `if (cachedData)`)
  are modelled by `JsValue`; objects and arrays, which are always truthy, are
  collapsed to opaque constructors.  `NaN` is not modelled.
-/

namespace Liqubit

/-- A JavaScript runtime value, as far as truthiness is concerned.
Objects and arrays are always truthy in JavaScript, so they are modelled
opaquely. -/
inductive JsValue where
  | null
  | undefined
  | bool (b : Bool)
  | num (n : Int)
  | str (s : String)
  | obj
  | arr
  deriving DecidableEq, Repr, Inhabited

/-- JavaScript truthiness: `null`, `undefined`, `false`, `0` and `""` are
falsy; everything else modelled here is truthy. -/
def JsValue.truthy : JsValue → Bool
  | .null => false
  | .undefined => false
  | .bool b => b
  | .num n => n != 0
  | .str s => s != ""
  | .obj => true
  | .arr => true

/-! ## `ProviderError` (src/src/data/providers/utils.ts)

```ts
export class ProviderError extends Error {
  constructor(message, provider, statusCode?, response?) { ... }
}
``` -/

structure ProviderError where
  message : String
  provider : String
  statusCode : Option Nat := none
  deriving DecidableEq, Repr

/-! ## `validateResponse` (src/src/data/providers/utils.ts)

```ts
export function validateResponse(data, requiredFields, provider): void {
  const missingFields = requiredFields.filter(field => !data[field]);
  if (missingFields.length > 0) {
    throw new ProviderError(
      `Missing required fields from ${provider}: ${missingFields.join(", ")}`,
      provider);
  }
}
```

`data` is modelled as a total map from field name to `JsValue`
(`data[f]` on an absent property yields `undefined`, which the map can
return directly). -/

/-- Models `missingFields.join(", ")`. -/
def joinComma : List String → String
  | [] => ""
  | [s] => s
  | s :: rest => s ++ ", " ++ joinComma rest

def validateResponse (data : String → JsValue) (requiredFields : List String)
    (provider : String) : Except ProviderError Unit :=
  let missingFields := requiredFields.filter (fun field => !(data field).truthy)
  if missingFields.length > 0 then
    .error ⟨"Missing required fields from " ++ provider ++ ": " ++
      joinComma missingFields, provider, none⟩
  else
    .ok ()

/-! ## Retry executor `fetchWithRetry` (src/src/data/providers/utils.ts)

```ts
export async function fetchWithRetry<T>(fetcher, config, providerName) {
  let lastError = null;
  for (let attempt = 0; attempt < config.maxRetries; attempt++) {
    try { return await fetcher(); }
    catch (error) {
      lastError = error;
      if (attempt < config.maxRetries - 1) { /* sleep, irrelevant to results */ }
    }
  }
  throw new ProviderError(
    `${providerName} request failed after ${config.maxRetries} attempts: ${lastError?.message}`,
    providerName);
}
```

The fallible operation is modelled as `outcomes : Nat → Except String α`,
giving the result of its `i`-th invocation (0-based).  The embedding returns
the number of invocations actually performed together with the overall
result; the backoff sleeps do not affect either. -/

structure RetryConfig where
  maxRetries : Nat
  baseDelay : Nat
  maxDelay : Nat
  deriving DecidableEq, Repr

/-- The message of the `ProviderError` thrown on exhaustion:
`lastError?.message` stringifies to `undefined` when no attempt ran. -/
def retryFailMessage (providerName : String) (maxRetries : Nat)
    (lastError : Option String) : String :=
  let lastMessage := match lastError with
    | some m => m
    | none => "undefined"
  providerName ++ " request failed after " ++ toString maxRetries ++
    " attempts: " ++ lastMessage

/-- The retry loop.  `remaining` counts the iterations left,
`outcomes` gives the results of the remaining invocations in order
(index 0 is the next invocation).  Returns (number of invocations
performed, overall result). -/
def retryGo (providerName : String) (maxRetries : Nat) :
    (outcomes : Nat → Except String α) → (remaining : Nat) →
    (lastError : Option String) → Nat × Except ProviderError α
  | _, 0, lastError =>
      (0, .error ⟨retryFailMessage providerName maxRetries lastError,
        providerName, none⟩)
  | outcomes, remaining + 1, _ =>
      match outcomes 0 with
      | .ok v => (1, .ok v)
      | .error e =>
          let rest := retryGo providerName maxRetries
            (fun i => outcomes (i + 1)) remaining (some e)
          (rest.1 + 1, rest.2)

def fetchWithRetry (outcomes : Nat → Except String α) (config : RetryConfig)
    (providerName : String) : Nat × Except ProviderError α :=
  retryGo providerName config.maxRetries outcomes config.maxRetries none

/-! ## `CacheManager` (src/unnamed/part_012, lines 555–610)

```ts
export interface CacheConfig { ttl: number; maxSize: number; }
export interface CacheEntry<T> { data: T; timestamp: number; expiresAt: number; }
export class CacheManager<T> {
  private cache: Map<string, CacheEntry<T>> = new Map();
  constructor(config) { this.config = config; this.startCleanupInterval(); }
  set(key, data) {
    const now = Date.now();
    this.cache.set(key, { data, timestamp: now, expiresAt: now + this.config.ttl });
    if (this.cache.size > this.config.maxSize) this.evictOldest();
  }
  get(key) {
    const entry = this.cache.get(key);
    if (!entry || Date.now() > entry.expiresAt) {
      if (entry) this.cache.delete(key);
      return null;
    }
    return entry.data;
  }
  private evictOldest() {
    let oldestKey = null; let oldestTimestamp = Infinity;
    for (const [key, entry] of this.cache.entries())
      if (entry.timestamp < oldestTimestamp) {
        oldestTimestamp = entry.timestamp; oldestKey = key;
      }
    if (oldestKey) this.cache.delete(oldestKey);
  }
}
``` -/

structure CacheConfig where
  ttl : Int
  maxSize : Int
  deriving DecidableEq, Repr

structure CacheEntry (α : Type u) where
  data : α
  timestamp : Int
  expiresAt : Int
  deriving DecidableEq, Repr

/-- The state of a `CacheManager<T>`: the backing `Map` in insertion order,
plus the immutable configuration. -/
structure CacheManager (α : Type u) where
  entries : List (String × CacheEntry α)
  config : CacheConfig
  deriving DecidableEq, Repr

namespace CacheManager

/-- Models `Map.set`: update in place when the key is present, else append. -/
def mapSet (m : List (String × CacheEntry α)) (k : String) (e : CacheEntry α) :
    List (String × CacheEntry α) :=
  match m with
  | [] => [(k, e)]
  | (k', e') :: rest =>
      if k' = k then (k, e) :: rest else (k', e') :: mapSet rest k e

/-- Models `Map.delete` (the backing map never holds a key twice, so
removing every occurrence of the key is the same operation). -/
def mapDelete : List (String × CacheEntry α) → String →
    List (String × CacheEntry α)
  | [], _ => []
  | (k', e') :: rest, k =>
      if k' = k then mapDelete rest k else (k', e') :: mapDelete rest k

/-- Models `Map.get`: first entry with the key (unique under the rep
invariant). -/
def mapGet (m : List (String × CacheEntry α)) (k : String) :
    Option (CacheEntry α) :=
  match m with
  | [] => none
  | (k', e') :: rest => if k' = k then some e' else mapGet rest k

/-- The scan of `evictOldest`: `oldestKey` and `oldestTimestamp` (paired
here, `null`/`Infinity` initially modelled by `none`) accumulate the first
entry whose timestamp is *strictly* below the best so far. -/
def oldestScan : List (String × CacheEntry α) → Option (String × Int) →
    Option String
  | [], best => best.map Prod.fst
  | (k, e) :: rest, best =>
      match best with
      | none => oldestScan rest (some (k, e.timestamp))
      | some (bk, bt) =>
          if e.timestamp < bt then oldestScan rest (some (k, e.timestamp))
          else oldestScan rest (some (bk, bt))

/-- Models `evictOldest`: delete the entry found by the scan — but only when
its key is truthy (`if (oldestKey)`), so an empty-string key is never
deleted. -/
def evictOldest (c : CacheManager α) : CacheManager α :=
  match oldestScan c.entries none with
  | none => c
  | some k => if k = "" then c else { c with entries := mapDelete c.entries k }

/-- Models `set(key, data)` at instant `now`. -/
def set (c : CacheManager α) (now : Int) (key : String) (data : α) :
    CacheManager α :=
  let entry : CacheEntry α := ⟨data, now, now + c.config.ttl⟩
  let c' : CacheManager α := { c with entries := mapSet c.entries key entry }
  if (c'.entries.length : Int) > c.config.maxSize then evictOldest c' else c'

/-- Models `get(key)` at instant `now`: the returned value (`null` ↦ `none`)
and the cache state afterwards (a stale hit deletes the entry). -/
def get (c : CacheManager α) (now : Int) (key : String) :
    Option α × CacheManager α :=
  match mapGet c.entries key with
  | none => (none, c)
  | some entry =>
      if now > entry.expiresAt then
        (none, { c with entries := mapDelete c.entries key })
      else
        (some entry.data, c)

/-- The constructor stores the configuration unchecked and starts the sweep
timer; it has no failure path, so the `Except` is always `.ok`. -/
def construct (config : CacheConfig) : Except String (CacheManager α) :=
  .ok { entries := [], config := config }

end CacheManager

/-! ## `RateLimiter` (src/src/data/providers/utils.ts)

```ts
export class RateLimiter {
  private lastRequest: number = 0;
  private requestQueue: Promise<void> = Promise.resolve();
  constructor(private minInterval: number) {}
  async acquire(): Promise<void> {
    const now = Date.now();
    const timeToWait = Math.max(0, this.lastRequest + this.minInterval - now);
    this.requestQueue = this.requestQueue.then(
      () => new Promise(resolve => setTimeout(resolve, timeToWait)));
    await this.requestQueue;
    this.lastRequest = Date.now();
  }
}
```

Timing model.  A caller arriving at instant `t` runs the synchronous prefix
of `acquire` at `t`: it reads `lastRequest` — the dispatch instant of the
latest earlier caller that resumed strictly before `t` (initially
`lastRequest = 0`, and with a real epoch clock `max(0, 0 + d - now) = 0`,
so the no-previous-dispatch case waits 0) — computes `timeToWait` from that
possibly stale value, and chains its sleep onto the queue.  Its sleep starts
when the previous queue entry resolves (the dispatch instant of the previous caller) or at `t` itself if the queue is already resolved, and its own
dispatch is the end of that sleep.  Arrival instants are processed in call
order. -/

namespace RateLimiter

/-- The `lastRequest` value visible at instant `t`: the latest dispatch that
happened strictly before `t` (dispatches are written in increasing order). -/
def lastSeen (dispatches : List Nat) (t : Nat) : Option Nat :=
  (dispatches.filter (fun x => x < t)).getLast?

/-- One `acquire()` call arriving at instant `t`, given the dispatch instants
of all earlier callers (in order): appends the dispatch instant of this caller. -/
def step (minInterval : Nat) (dispatches : List Nat) (t : Nat) : List Nat :=
  let timeToWait :=
    match lastSeen dispatches t with
    | none => 0
    | some lastRequest => lastRequest + minInterval - t
  let queueEnd := dispatches.getLast?.getD 0
  dispatches ++ [max t queueEnd + timeToWait]

/-- A whole run: the dispatch instants produced by `acquire()` calls arriving
at the given instants, in call order. -/
def run (minInterval : Nat) (arrivals : List Nat) : List Nat :=
  arrivals.foldl (step minInterval) []

end RateLimiter

/-! ## Data model of the aggregator (src/src/data/market-data-aggregator.ts
and src/src/data/providers/base-provider.ts)

JavaScript numbers are modelled as `Int` (all values used in the default
records are integers) and `Date` values as `Int` timestamps. -/

structure MarketData where
  symbol : String
  price : Int
  priceChange24h : Int
  priceChangePercentage24h : Int
  volume24h : Int
  marketCap : Int
  high24h : Int
  low24h : Int
  circulatingSupply : Int
  totalSupply : Int
  lastUpdated : Int
  deriving DecidableEq, Repr

structure OnChainMetrics where
  symbol : String
  activeAddresses24h : Int
  transactionCount24h : Int
  averageTransactionValue : Int
  largeTransactions24h : Int
  netFlow24h : Int
  totalValueLocked : Int
  dailyActiveContracts : Int
  gasUsed24h : Int
  timestamp : Int
  deriving DecidableEq, Repr

structure MacdData where
  value : Int
  signal : Int
  histogram : Int
  deriving DecidableEq, Repr

structure EmaData where
  ema9 : Int
  ema20 : Int
  ema50 : Int
  ema200 : Int
  deriving DecidableEq, Repr

structure BollingerBands where
  upper : Int
  middle : Int
  lower : Int
  deriving DecidableEq, Repr

structure VolumeData where
  obv : Int
  vwap : Int
  deriving DecidableEq, Repr

structure TechnicalIndicators where
  symbol : String
  rsi14 : Int
  macd : MacdData
  ema : EmaData
  bollingerBands : BollingerBands
  volume : VolumeData
  timestamp : Int
  deriving DecidableEq, Repr

structure SocialMetrics where
  symbol : String
  twitterMentions24h : Int
  sentimentScore24h : Int
  telegramActiveUsers : Int
  redditSubscribers : Int
  githubCommits24h : Int
  developerActivity : Int
  timestamp : Int
  deriving DecidableEq, Repr

/-- The status union of the strings "success", "partial" and "error".  The middle string
is a reserved word in Lean, so the constructor `mixed` stands for the
literal "partial". -/
inductive FetchStatus where
  | success
  | mixed
  | error
  deriving DecidableEq, Repr

/-- The runtime value held by the `onChain` field of the record that
`fetchTokenData` returns.  The TypeScript type declares it
`OnChainMetrics`, but line 75 assigns
`this.providers.coingecko.getOnChainMetrics(symbol)` **without `await`**,
and `getOnChainMetrics` is an `async` method (it returns
`Promise<OnChainMetrics>`): at runtime the field holds either a populated
record (as `createDefaultAnalysis` stores) or the pending Promise of that
call, identified here by the symbol it was invoked with. -/
inductive OnChainValue where
  | record (m : OnChainMetrics)
  | pending (symbol : String)
  deriving DecidableEq, Repr

/-- Discriminator: does the `onChain` field hold a populated
`OnChainMetrics` record (rather than a pending Promise)? -/
def OnChainValue.isRecord : OnChainValue → Bool
  | .record _ => true
  | .pending _ => false

structure ComprehensiveAnalysis where
  symbol : String
  market : MarketData
  onChain : OnChainValue
  technical : TechnicalIndicators
  social : SocialMetrics
  timestamp : Int
  status : FetchStatus
  errors : Option (List String) := none
  deriving DecidableEq, Repr

/-! ## `MarketDataAggregator` (src/src/data/market-data-aggregator.ts)

`createDefaultAnalysis(symbol)` builds the zero-valued record; every
`new Date()` taken during one `fetchTokenData` call is modelled as the same
instant `ts`. -/

def defaultMarket (symbol : String) (ts : Int) : MarketData :=
  { symbol := symbol.toUpper, price := 0, priceChange24h := 0,
    priceChangePercentage24h := 0, volume24h := 0, marketCap := 0,
    high24h := 0, low24h := 0, circulatingSupply := 0, totalSupply := 0,
    lastUpdated := ts }

def defaultOnChain (symbol : String) (ts : Int) : OnChainMetrics :=
  { symbol := symbol.toUpper, activeAddresses24h := 0,
    transactionCount24h := 0, averageTransactionValue := 0,
    largeTransactions24h := 0, netFlow24h := 0, totalValueLocked := 0,
    dailyActiveContracts := 0, gasUsed24h := 0, timestamp := ts }

def defaultTechnical (symbol : String) (ts : Int) : TechnicalIndicators :=
  { symbol := symbol.toUpper, rsi14 := 0,
    macd := { value := 0, signal := 0, histogram := 0 },
    ema := { ema9 := 0, ema20 := 0, ema50 := 0, ema200 := 0 },
    bollingerBands := { upper := 0, middle := 0, lower := 0 },
    volume := { obv := 0, vwap := 0 }, timestamp := ts }

def defaultSocial (symbol : String) (ts : Int) : SocialMetrics :=
  { symbol := symbol.toUpper, twitterMentions24h := 0,
    sentimentScore24h := 0, telegramActiveUsers := 0,
    redditSubscribers := 0, githubCommits24h := 0, developerActivity := 0,
    timestamp := ts }

def createDefaultAnalysis (symbol : String) (ts : Int) :
    ComprehensiveAnalysis :=
  { symbol := symbol.toUpper, market := defaultMarket symbol ts,
    onChain := OnChainValue.record (defaultOnChain symbol ts),
    technical := defaultTechnical symbol ts,
    social := defaultSocial symbol ts, timestamp := ts,
    status := .success, errors := none }

/-- Models `fetchTokenData(symbol)`.

The three `Promise.allSettled` branches are modelled by
`marketResult`, `technicalResult`, `socialResult : Except String _`
(`.error reason` is a rejected promise, `reason` its stringification).
The `try` block can never throw: `Promise.allSettled` itself never
rejects, and the later line
`analysis.onChain = this.providers.coingecko.getOnChainMetrics(symbol)`
calls an `async` method **without `await`** — an async call returns a
(possibly rejected) Promise instead of throwing synchronously — so the
`catch` block (the only source of status "error") is unreachable and is
not modelled.  The un-awaited assignment leaves the pending Promise in
`onChain`, modelled by `OnChainValue.pending symbol`.  The final status is
`errors.length === 0 ? "success" : "partial"`. -/
def fetchTokenData (symbol : String) (ts : Int)
    (marketResult : Except String MarketData)
    (technicalResult : Except String TechnicalIndicators)
    (socialResult : Except String SocialMetrics) :
    ComprehensiveAnalysis :=
  let analysis := createDefaultAnalysis symbol ts
  let market := match marketResult with
    | .ok v => v
    | .error _ => analysis.market
  let errs1 := match marketResult with
    | .ok _ => ([] : List String)
    | .error reason => ["Market data error: " ++ reason]
  let technical := match technicalResult with
    | .ok v => v
    | .error _ => analysis.technical
  let errs2 := match technicalResult with
    | .ok _ => ([] : List String)
    | .error reason => ["Technical data error: " ++ reason]
  let social := match socialResult with
    | .ok v => v
    | .error _ => analysis.social
  let errs3 := match socialResult with
    | .ok _ => ([] : List String)
    | .error reason => ["Social data error: " ++ reason]
  let errors := errs1 ++ errs2 ++ errs3
  { analysis with
    market := market, technical := technical, social := social,
    onChain := OnChainValue.pending symbol, timestamp := ts,
    status := if errors.length = 0 then .success else .mixed,
    errors := if errors.length > 0 then some errors else none }

/-! ## `EnhancedMarketDataAggregator` (src/src/data/market-data-aggregator.ts,
second document)

```ts
constructor(private config: AggregatorConfig) {
  this.cache = new CacheManager({ ttl: config.cacheTTL, maxSize: config.maxCacheSize });
  if (config.providers.coingecko) { this.providers.set("coingecko", ...); ... }
  if (config.providers.cookiefun) { this.providers.set("cookiefun", ...); ... }
}
```

The constructor performs no validation and cannot throw. -/

structure AggregatorConfig where
  cacheTTL : Int
  maxCacheSize : Int
  rateLimit : Int
  coingecko : Bool
  cookiefun : Bool
  deriving DecidableEq, Repr

/-- The aggregator state after construction: registered provider names (in
registration order) and the cache.  Rate limiters carry no data relevant to
the claims settled here beyond their existence. -/
structure EnhancedAggregator where
  providerNames : List String
  cache : CacheManager JsValue
  deriving DecidableEq, Repr

/-- The `EnhancedMarketDataAggregator` constructor; its body has no throw
path, so the `Except` layer that models exceptions is always `.ok`. -/
def constructAggregator (config : AggregatorConfig) :
    Except String EnhancedAggregator :=
  let names := (if config.coingecko then ["coingecko"] else []) ++
    (if config.cookiefun then ["cookiefun"] else [])
  let cacheConfig : CacheConfig := ⟨config.cacheTTL, config.maxCacheSize⟩
  .ok { providerNames := names, cache := ⟨[], cacheConfig⟩ }

/-- Models `aggregateData(symbol, method, mergeStrategy)` at instant `now`.

```ts
const cacheKey = `${symbol}-${method}`;
const cachedData = this.cache.get(cacheKey);
if (cachedData) return cachedData;
const results = await Promise.all(providerPromises);
const mergedData = mergeStrategy(results);
this.cache.set(cacheKey, mergedData);
return mergedData;
```

`fanOut` gives the per-provider outcome (`some v` a fetched value, `none`
the `null` an erroring `fetchFromProvider` resolves to); the returned `Bool`
records whether the provider fan-out was performed. -/
def aggregateData (agg : EnhancedAggregator) (now : Int)
    (symbol method : String) (fanOut : List (Option JsValue))
    (mergeStrategy : List (Option JsValue) → JsValue) :
    JsValue × EnhancedAggregator × Bool :=
  let cacheKey := symbol ++ "-" ++ method
  let (cachedData, cache1) := agg.cache.get now cacheKey
  match cachedData with
  | some v =>
      if v.truthy then (v, { agg with cache := cache1 }, false)
      else
        let mergedData := mergeStrategy fanOut
        (mergedData,
          { agg with cache := cache1.set now cacheKey mergedData }, true)
  | none =>
      let mergedData := mergeStrategy fanOut
      (mergedData,
        { agg with cache := cache1.set now cacheKey mergedData }, true)

/-! ## Lemmas about the backing map of the cache -/

namespace CacheManager

variable {α : Type u}

theorem mapGet_mapSet_self (m : List (String × CacheEntry α)) (k : String)
    (e : CacheEntry α) : mapGet (mapSet m k e) k = some e := by
  induction m with
  | nil => simp [mapSet, mapGet]
  | cons p rest ih =>
      obtain ⟨k', e'⟩ := p
      by_cases h : k' = k
      · simp [mapSet, mapGet, h]
      · simp [mapSet, mapGet, h, ih]

theorem mapGet_mapDelete_self (m : List (String × CacheEntry α))
    (k : String) : mapGet (mapDelete m k) k = none := by
  induction m with
  | nil => simp [mapDelete, mapGet]
  | cons p rest ih =>
      obtain ⟨k', e'⟩ := p
      by_cases h : k' = k
      · simpa [mapDelete, h] using ih
      · simpa [mapDelete, mapGet, h] using ih

theorem mapGet_mapDelete_ne (m : List (String × CacheEntry α))
    (k k' : String) (h : k ≠ k') :
    mapGet (mapDelete m k') k = mapGet m k := by
  induction m with
  | nil => simp [mapDelete, mapGet]
  | cons p rest ih =>
      obtain ⟨a, e⟩ := p
      by_cases ha : a = k'
      · have hak : a ≠ k := by
          intro hh; exact h (hh ▸ ha)
        simp [mapDelete, mapGet, ha, hak, ih, Ne.symm h]
      · by_cases hk : a = k
        · simp [mapDelete, mapGet, ha, hk, h]
        · simp [mapDelete, mapGet, ha, hk, ih]

theorem mapSet_fresh (m : List (String × CacheEntry α)) (k : String)
    (e : CacheEntry α) (h : ∀ p ∈ m, p.1 ≠ k) :
    mapSet m k e = m ++ [(k, e)] := by
  induction m with
  | nil => simp [mapSet]
  | cons p rest ih =>
      obtain ⟨k', e'⟩ := p
      have hk' : k' ≠ k := h (k', e') (by simp)
      simp only [mapSet, if_neg hk', List.cons_append, List.cons.injEq,
        true_and]
      exact ih (fun q hq => h q (by simp [hq]))

theorem mapSet_length (m : List (String × CacheEntry α)) (k : String)
    (e : CacheEntry α) :
    (mapSet m k e).length = m.length ∨
      (mapSet m k e).length = m.length + 1 := by
  induction m with
  | nil => right; simp [mapSet]
  | cons p rest ih =>
      obtain ⟨k', e'⟩ := p
      by_cases h : k' = k
      · left; simp [mapSet, h]
      · rcases ih with h1 | h1
        · left; simp [mapSet, h, h1]
        · right; simp [mapSet, h, h1]

theorem mapSet_length_le (m : List (String × CacheEntry α)) (k : String)
    (e : CacheEntry α) : (mapSet m k e).length ≤ m.length + 1 := by
  rcases mapSet_length m k e with h | h <;> omega

theorem mapSet_mem (m : List (String × CacheEntry α)) (k : String)
    (e : CacheEntry α) (p : String × CacheEntry α) (h : p ∈ mapSet m k e) :
    p = (k, e) ∨ p ∈ m := by
  induction m with
  | nil => simpa [mapSet] using h
  | cons q rest ih =>
      obtain ⟨k', e'⟩ := q
      by_cases hk : k' = k
      · simp only [mapSet, if_pos hk, List.mem_cons] at h
        rcases h with h | h
        · exact Or.inl h
        · exact Or.inr (by simp [h])
      · simp only [mapSet, if_neg hk, List.mem_cons] at h
        rcases h with h | h
        · exact Or.inr (by simp [h])
        · rcases ih h with h1 | h1
          · exact Or.inl h1
          · exact Or.inr (by simp [h1])

theorem mapSet_not_mem_self (m : List (String × CacheEntry α)) (k : String)
    (e : CacheEntry α) : mapGet (mapSet m k e) k ≠ none := by
  simp [mapGet_mapSet_self]

theorem mapDelete_length_le (m : List (String × CacheEntry α)) (k : String) :
    (mapDelete m k).length ≤ m.length := by
  induction m with
  | nil => simp [mapDelete]
  | cons p rest ih =>
      obtain ⟨a, e⟩ := p
      by_cases h : a = k
      · simp only [mapDelete, if_pos h, List.length_cons]
        omega
      · simp only [mapDelete, if_neg h, List.length_cons]
        omega

theorem mapDelete_length_lt (m : List (String × CacheEntry α)) (k : String)
    (h : ∃ p ∈ m, p.1 = k) : (mapDelete m k).length < m.length := by
  induction m with
  | nil => simp at h
  | cons p rest ih =>
      obtain ⟨a, e⟩ := p
      by_cases ha : a = k
      · have := mapDelete_length_le rest k
        simp only [mapDelete, if_pos ha, List.length_cons]
        omega
      · obtain ⟨q, hq, hq1⟩ := h
        rcases List.mem_cons.mp hq with rfl | hq'
        · exact absurd hq1 ha
        · have := ih ⟨q, hq', hq1⟩
          simp only [mapDelete, if_neg ha, List.length_cons]
          omega

theorem mapDelete_mem (m : List (String × CacheEntry α)) (k : String)
    (p : String × CacheEntry α) (hp : p ∈ m) (hk : p.1 ≠ k) :
    p ∈ mapDelete m k := by
  induction m with
  | nil => simp at hp
  | cons q rest ih =>
      obtain ⟨a, e⟩ := q
      rcases List.mem_cons.mp hp with rfl | hp'
      · simp only [mapDelete, if_neg hk]
        exact List.mem_cons_self _ _
      · by_cases ha : a = k
        · simpa [mapDelete, ha] using ih hp'
        · simp only [mapDelete, if_neg ha]
          exact List.mem_cons_of_mem _ (ih hp')

theorem mapSet_keys_nodup (m : List (String × CacheEntry α)) (k : String)
    (e : CacheEntry α) (h : (m.map Prod.fst).Nodup) :
    ((mapSet m k e).map Prod.fst).Nodup := by
  induction m with
  | nil => simp [mapSet]
  | cons p rest ih =>
      obtain ⟨a, e'⟩ := p
      simp only [List.map_cons, List.nodup_cons] at h
      by_cases ha : a = k
      · subst ha
        simpa [mapSet] using h
      · have hrest := ih h.2
        simp only [mapSet, if_neg ha, List.map_cons, List.nodup_cons]
        refine ⟨?_, hrest⟩
        intro hmem
        obtain ⟨q, hq, hq1⟩ := List.mem_map.mp hmem
        rcases mapSet_mem rest k e q hq with rfl | hq'
        · exact ha hq1.symm
        · exact h.1 (List.mem_map.mpr ⟨q, hq', hq1⟩)

theorem mem_keys_nodup_eq (m : List (String × CacheEntry α))
    (h : (m.map Prod.fst).Nodup) (k : String) (e₁ e₂ : CacheEntry α)
    (h1 : (k, e₁) ∈ m) (h2 : (k, e₂) ∈ m) : e₁ = e₂ := by
  induction m with
  | nil => simp at h1
  | cons p rest ih =>
      obtain ⟨a, e⟩ := p
      simp only [List.map_cons, List.nodup_cons] at h
      rcases List.mem_cons.mp h1 with heq1 | h1'
      · rcases List.mem_cons.mp h2 with heq2 | h2'
        · have := heq1.trans heq2.symm
          exact congrArg Prod.snd this
        · exfalso
          have hk : a = k := (congrArg Prod.fst heq1).symm
          exact h.1 (List.mem_map.mpr ⟨(k, e₂), h2', hk.symm ▸ rfl⟩)
      · rcases List.mem_cons.mp h2 with heq2 | h2'
        · exfalso
          have hk : a = k := (congrArg Prod.fst heq2).symm
          exact h.1 (List.mem_map.mpr ⟨(k, e₁), h1', hk.symm ▸ rfl⟩)
        · exact ih h.2 h1' h2'

theorem oldestScan_go_spec (m : List (String × CacheEntry α)) :
    ∀ (bk : String) (bt : Int), ∃ k₀,
      oldestScan m (some (bk, bt)) = some k₀ ∧
      ((k₀ = bk ∧ ∀ q ∈ m, bt ≤ q.2.timestamp) ∨
       (∃ e₀, (k₀, e₀) ∈ m ∧ e₀.timestamp ≤ bt ∧
          ∀ q ∈ m, e₀.timestamp ≤ q.2.timestamp)) := by
  induction m with
  | nil =>
      intro bk bt
      exact ⟨bk, rfl, Or.inl ⟨rfl, by simp⟩⟩
  | cons p rest ih =>
      intro bk bt
      obtain ⟨a, e⟩ := p
      by_cases hlt : e.timestamp < bt
      · obtain ⟨k₀, hscan, hspec⟩ := ih a e.timestamp
        refine ⟨k₀, by simpa [oldestScan, hlt] using hscan, Or.inr ?_⟩
        rcases hspec with ⟨rfl, hmin⟩ | ⟨e₀, hmem, hle, hmin⟩
        · exact ⟨e, List.mem_cons_self _ _, le_of_lt hlt,
            by
              intro q hq
              rcases List.mem_cons.mp hq with rfl | hq'
              · exact le_refl _
              · exact hmin q hq'⟩
        · exact ⟨e₀, List.mem_cons_of_mem _ hmem,
            le_trans hle (le_of_lt hlt),
            by
              intro q hq
              rcases List.mem_cons.mp hq with rfl | hq'
              · exact hle
              · exact hmin q hq'⟩
      · obtain ⟨k₀, hscan, hspec⟩ := ih bk bt
        refine ⟨k₀, by simpa [oldestScan, hlt] using hscan, ?_⟩
        push_neg at hlt
        rcases hspec with ⟨rfl, hmin⟩ | ⟨e₀, hmem, hle, hmin⟩
        · refine Or.inl ⟨rfl, ?_⟩
          intro q hq
          rcases List.mem_cons.mp hq with rfl | hq'
          · exact hlt
          · exact hmin q hq'
        · refine Or.inr ⟨e₀, List.mem_cons_of_mem _ hmem, hle, ?_⟩
          intro q hq
          rcases List.mem_cons.mp hq with rfl | hq'
          · exact le_trans hle hlt
          · exact hmin q hq'

theorem oldestScan_spec (m : List (String × CacheEntry α)) (hm : m ≠ []) :
    ∃ k₀ e₀, oldestScan m none = some k₀ ∧ (k₀, e₀) ∈ m ∧
      ∀ q ∈ m, e₀.timestamp ≤ q.2.timestamp := by
  match m, hm with
  | (a, e) :: rest, _ =>
      obtain ⟨k₀, hscan, hspec⟩ := oldestScan_go_spec rest a e.timestamp
      rcases hspec with ⟨rfl, hmin⟩ | ⟨e₀, hmem, hle, hmin⟩
      · refine ⟨k₀, e, by simpa [oldestScan] using hscan,
          List.mem_cons_self _ _, ?_⟩
        intro q hq
        rcases List.mem_cons.mp hq with rfl | hq'
        · exact le_refl _
        · exact hmin q hq'
      · refine ⟨k₀, e₀, by simpa [oldestScan] using hscan,
          List.mem_cons_of_mem _ hmem, ?_⟩
        intro q hq
        rcases List.mem_cons.mp hq with rfl | hq'
        · exact hle
        · exact hmin q hq'

theorem mapSet_length_mem (m : List (String × CacheEntry α)) (k : String)
    (e : CacheEntry α) (h : ∃ p ∈ m, p.1 = k) :
    (mapSet m k e).length = m.length := by
  induction m with
  | nil => simp at h
  | cons p rest ih =>
      obtain ⟨a, f⟩ := p
      by_cases ha : a = k
      · simp [mapSet, ha]
      · obtain ⟨q, hq, hq1⟩ := h
        rcases List.mem_cons.mp hq with rfl | hq'
        · exact absurd hq1 ha
        · simp [mapSet, ha, ih ⟨q, hq', hq1⟩]

theorem oldestScan_append_last (xs : List (String × CacheEntry α))
    (k : String) (e : CacheEntry α) :
    ∀ (bk : String) (bt : Int), bt ≤ e.timestamp →
      oldestScan (xs ++ [(k, e)]) (some (bk, bt)) =
        oldestScan xs (some (bk, bt)) := by
  induction xs with
  | nil =>
      intro bk bt hbt
      have : ¬ e.timestamp < bt := not_lt.mpr hbt
      simp [oldestScan, this]
  | cons p rest ih =>
      intro bk bt hbt
      obtain ⟨a, f⟩ := p
      by_cases hlt : f.timestamp < bt
      · simp only [List.cons_append, oldestScan, if_pos hlt]
        exact ih a f.timestamp (le_trans (le_of_lt hlt) hbt)
      · simp only [List.cons_append, oldestScan, if_neg hlt]
        exact ih bk bt hbt

end CacheManager

/-! ## Claim C4: cache size bound and strict insertion-order eviction -/

/-- C4 counterexample.  The claim states that after each `set` the cache
holds at most `maxSize` entries.  With `maxSize = 1`, setting key `""` and
then key `"a"` leaves 2 entries: `evictOldest` finds `oldestKey = ""`,
which is falsy, so `if (oldestKey)` skips the deletion and the cache stays
over capacity. -/
theorem claim_C4_counterexample :
    (((⟨[], ⟨100, 1⟩⟩ : CacheManager Nat).set 0 "" 5).set 1 "a" 6
      |>.entries.length) = 2 ∧
    (((⟨[], ⟨100, 1⟩⟩ : CacheManager Nat).set 0 "" 5).set 1 "a" 6
      |>.config.maxSize) = 1 := by
  exact ⟨rfl, rfl⟩

/-- C4 amended: provided no stored key is the empty string and the key
being set is nonempty (so the falsy-key guard in `evictOldest` cannot
fire), a `set` on a cache within capacity leaves at most `maxSize`
entries, and any entry evicted by that `set` has the smallest insertion
timestamp among the entries present after the insert. -/
theorem claim_C4_amended (c : CacheManager α) (now : Int) (k : String)
    (v : α)
    (hnodup : (c.entries.map Prod.fst).Nodup)
    (hkeys : ∀ p ∈ c.entries, p.1 ≠ "")
    (hk : k ≠ "")
    (hsize : (c.entries.length : Int) ≤ c.config.maxSize) :
    ((c.set now k v).entries.length : Int) ≤ c.config.maxSize ∧
    ∀ p ∈ CacheManager.mapSet c.entries k ⟨v, now, now + c.config.ttl⟩,
      p ∉ (c.set now k v).entries →
      ∀ q ∈ CacheManager.mapSet c.entries k ⟨v, now, now + c.config.ttl⟩,
        p.2.timestamp ≤ q.2.timestamp := by
  classical
  set e₁ : CacheEntry α := ⟨v, now, now + c.config.ttl⟩ with he₁
  set m1 := CacheManager.mapSet c.entries k e₁ with hm1
  have hset : c.set now k v =
      (if (m1.length : Int) > c.config.maxSize then
        CacheManager.evictOldest ⟨m1, c.config⟩ else ⟨m1, c.config⟩) := by
    simp [CacheManager.set, hm1, he₁]
  by_cases hover : (m1.length : Int) > c.config.maxSize
  · -- eviction path
    have hm1ne : m1 ≠ [] := by
      intro h0
      rw [h0] at hover
      simp at hover
      omega
    obtain ⟨k₀, e₀, hscan, hmem, hmin⟩ :=
      CacheManager.oldestScan_spec m1 hm1ne
    have hk₀ : k₀ ≠ "" := by
      rcases CacheManager.mapSet_mem c.entries k e₁ (k₀, e₀) (hm1 ▸ hmem)
        with h | h
      · have : k₀ = k := congrArg Prod.fst h
        exact this ▸ hk
      · exact hkeys (k₀, e₀) h
    have hres : (c.set now k v).entries = CacheManager.mapDelete m1 k₀ := by
      rw [hset, if_pos hover]
      simp [CacheManager.evictOldest, hscan, hk₀]
    constructor
    · rw [hres]
      have h1 : (CacheManager.mapDelete m1 k₀).length < m1.length :=
        CacheManager.mapDelete_length_lt m1 k₀ ⟨(k₀, e₀), hmem, rfl⟩
      have h2 : m1.length ≤ c.entries.length + 1 := by
        rw [hm1]; exact CacheManager.mapSet_length_le c.entries k e₁
      have h3 : ((CacheManager.mapDelete m1 k₀).length : Int) <
          (c.entries.length : Int) + 1 := by
        exact_mod_cast Nat.lt_of_lt_of_le h1 h2
      omega
    · intro p hp hpnot q hq
      rw [hres] at hpnot
      have hp1 : p.1 = k₀ := by
        by_contra hne
        exact hpnot (CacheManager.mapDelete_mem m1 k₀ p hp hne)
      have hnodup1 : (m1.map Prod.fst).Nodup := by
        rw [hm1]; exact CacheManager.mapSet_keys_nodup c.entries k e₁ hnodup
      have hpe : p.2 = e₀ := by
        have hpm : (k₀, p.2) ∈ m1 := by
          have : p = (k₀, p.2) := by
            exact Prod.ext hp1 rfl
          exact this ▸ hp
        exact CacheManager.mem_keys_nodup_eq m1 hnodup1 k₀ p.2 e₀ hpm hmem
      rw [hpe]
      exact hmin q hq
  · constructor
    · rw [hset, if_neg hover]
      exact not_lt.mp hover
    · intro p hp hpnot q hq
      rw [hset, if_neg hover] at hpnot
      exact absurd hp hpnot

/-- C4 witness: a concrete within-capacity cache with nonempty keys; the
amended theorem applies and both conclusions evaluate. -/
theorem claim_C4_amended_witness :
    ((((⟨[("a", ⟨1, 0, 100⟩)], ⟨100, 1⟩⟩ : CacheManager Nat)
        |>.set 1 "b" 2).entries.length : Int) ≤ 1) ∧
    ∀ p ∈ CacheManager.mapSet
        ([("a", ⟨1, 0, 100⟩)] : List (String × CacheEntry Nat)) "b" ⟨2, 1, 101⟩,
      p ∉ ((⟨[("a", ⟨1, 0, 100⟩)], ⟨100, 1⟩⟩ : CacheManager Nat)
        |>.set 1 "b" 2).entries →
      ∀ q ∈ CacheManager.mapSet
          ([("a", ⟨1, 0, 100⟩)] : List (String × CacheEntry Nat)) "b" ⟨2, 1, 101⟩,
        p.2.timestamp ≤ q.2.timestamp :=
  claim_C4_amended (⟨[("a", ⟨1, 0, 100⟩)], ⟨100, 1⟩⟩ : CacheManager Nat)
    1 "b" 2 (by decide) (by decide) (by decide) (by decide)

/-! ## Claim C7: expiry semantics of `get` -/

/-- C7 counterexample.  The claim states that a `get` at any time
`≥ insertedAt + ttl` returns the not-found signal, but the code tests
`Date.now() > entry.expiresAt` strictly: with `ttl = 10`, an entry set at
time 0 is still returned by a `get` at time exactly 10 = insertedAt + ttl. -/
theorem claim_C7_counterexample :
    ((((⟨[], ⟨10, 5⟩⟩ : CacheManager Nat).set 0 "k" 7).get 10 "k").1
      = some 7) ∧ (10 : Int) ≥ 0 + 10 := by
  exact ⟨rfl, by norm_num⟩

/-- C7 amended: a `get` at any time *strictly* greater than `expiresAt`
(which `set` makes `insertedAt + ttl`) returns the not-found signal and
deletes the stale entry, the key is absent afterwards, and every subsequent
`get` of the same key, at any time, also returns not-found and leaves the
state unchanged (no resurrection) until a new `set`. -/
theorem claim_C7_amended (c : CacheManager α) (k : String)
    (e : CacheEntry α) (t t' : Int)
    (he : CacheManager.mapGet c.entries k = some e)
    (ht : t > e.expiresAt) :
    (c.get t k).1 = none ∧
    CacheManager.mapGet ((c.get t k).2).entries k = none ∧
    ((c.get t k).2).get t' k = (none, (c.get t k).2) := by
  have h1 : c.get t k =
      (none, ⟨CacheManager.mapDelete c.entries k, c.config⟩) := by
    simp [CacheManager.get, he, ht]
  have h2 : CacheManager.mapGet
      (CacheManager.mapDelete c.entries k) k = none :=
    CacheManager.mapGet_mapDelete_self c.entries k
  refine ⟨by rw [h1], by rw [h1]; exact h2, ?_⟩
  rw [h1]
  simp [CacheManager.get, h2]

/-- C7 witness: entry with `expiresAt = 10`; a `get` at time 11 misses,
deletes, and a later `get` at time 99 still misses without changing the
state. -/
theorem claim_C7_amended_witness :
    (((⟨[("k", ⟨7, 0, 10⟩)], ⟨10, 5⟩⟩ : CacheManager Nat).get 11 "k").1
      = none) ∧
    CacheManager.mapGet
      ((((⟨[("k", ⟨7, 0, 10⟩)], ⟨10, 5⟩⟩ : CacheManager Nat).get 11 "k").2)
        |>.entries) "k" = none ∧
    ((((⟨[("k", ⟨7, 0, 10⟩)], ⟨10, 5⟩⟩ : CacheManager Nat).get 11 "k").2)
      |>.get 99 "k") =
      (none, (((⟨[("k", ⟨7, 0, 10⟩)], ⟨10, 5⟩⟩ : CacheManager Nat)
        |>.get 11 "k").2)) :=
  claim_C7_amended (⟨[("k", ⟨7, 0, 10⟩)], ⟨10, 5⟩⟩ : CacheManager Nat)
    "k" ⟨7, 0, 10⟩ 11 99 (by decide) (by decide)

/-! ## Claim C8: round-trip `set` then `get` before expiry -/

/-- C8: on a cache within capacity (`size ≤ maxSize`, `maxSize ≥ 1`) whose
stored timestamps do not exceed the current clock, `set(k, v)` followed by
`get(k)` at any time up to `insertedAt + ttl` returns exactly `v` (Lean
equality is the deep equality of the claim; `α` is arbitrary, so null
payloads and nested structures are covered). -/
theorem claim_C8_roundTrip (c : CacheManager α) (now t : Int) (k : String)
    (v : α)
    (hmono : ∀ p ∈ c.entries, p.2.timestamp ≤ now)
    (hmax : 1 ≤ c.config.maxSize)
    (hsize : (c.entries.length : Int) ≤ c.config.maxSize)
    (ht : t ≤ now + c.config.ttl) :
    ((c.set now k v).get t k).1 = some v := by
  classical
  set e₁ : CacheEntry α := ⟨v, now, now + c.config.ttl⟩ with he₁
  set m1 := CacheManager.mapSet c.entries k e₁ with hm1
  have hget1 : CacheManager.mapGet m1 k = some e₁ := by
    rw [hm1]; exact CacheManager.mapGet_mapSet_self c.entries k e₁
  have hset : c.set now k v =
      (if (m1.length : Int) > c.config.maxSize then
        CacheManager.evictOldest ⟨m1, c.config⟩ else ⟨m1, c.config⟩) := by
    simp [CacheManager.set, hm1, he₁]
  have hres : CacheManager.mapGet (c.set now k v).entries k = some e₁ := by
    by_cases hover : (m1.length : Int) > c.config.maxSize
    · have hfresh : ∀ p ∈ c.entries, p.1 ≠ k := by
        by_contra habs
        push_neg at habs
        obtain ⟨p, hp, hp1⟩ := habs
        have hlen : m1.length = c.entries.length := by
          rw [hm1]
          exact CacheManager.mapSet_length_mem c.entries k e₁ ⟨p, hp, hp1⟩
        rw [hlen] at hover
        omega
      have hm1eq : m1 = c.entries ++ [(k, e₁)] := by
        rw [hm1]; exact CacheManager.mapSet_fresh c.entries k e₁ hfresh
      have hent_ne : c.entries ≠ [] := by
        intro h0
        rw [hm1eq, h0] at hover
        simp at hover
        omega
      obtain ⟨a, f, rest, hc⟩ :
          ∃ a f rest, c.entries = (a, f) :: rest := by
        match hx : c.entries, hent_ne with
        | (a, f) :: rest, _ => exact ⟨a, f, rest, rfl⟩
      have hts : f.timestamp ≤ e₁.timestamp := by
        have := hmono (a, f) (by rw [hc]; exact List.mem_cons_self _ _)
        simpa [he₁] using this
      have hscan_eq : CacheManager.oldestScan m1 none =
          CacheManager.oldestScan c.entries none := by
        rw [hm1eq, hc]
        simp only [List.cons_append, CacheManager.oldestScan]
        exact CacheManager.oldestScan_append_last rest k e₁ a f.timestamp hts
      obtain ⟨k₀, e₀, hscan, hmem, _⟩ :=
        CacheManager.oldestScan_spec c.entries (by rw [hc]; simp)
      have hk₀k : k ≠ k₀ := by
        intro heq
        exact hfresh (k₀, e₀) hmem (heq ▸ rfl)
      rw [hset, if_pos hover]
      by_cases hk0e : k₀ = ""
      · simp [CacheManager.evictOldest, hscan_eq, hscan, hk0e, hget1]
      · simp only [CacheManager.evictOldest, hscan_eq, hscan, if_neg hk0e]
        exact (CacheManager.mapGet_mapDelete_ne m1 k k₀ hk₀k).trans hget1
    · rw [hset, if_neg hover]
      exact hget1
  have hexp : ¬ t > e₁.expiresAt := by
    simp only [he₁]
    exact not_lt.mpr ht
  simp [CacheManager.get, hres, hexp, he₁]

/-- C8 witness: empty cache with `ttl = 10`, `maxSize = 3`; `set` at time 0
and `get` at time 7 returns the stored value. -/
theorem claim_C8_roundTrip_witness :
    ((((⟨[], ⟨10, 3⟩⟩ : CacheManager Nat).set 0 "k" 5).get 7 "k").1
      = some 5) :=
  claim_C8_roundTrip (⟨[], ⟨10, 3⟩⟩ : CacheManager Nat) 0 7 "k" 5
    (by decide) (by decide) (by decide) (by decide)

/-! ## Claim C9: `validateResponse` falsy-field check -/

/-- C9: `validateResponse` throws a `ProviderError` naming the provider iff
at least one required field holds a falsy value (`0`, `""`, `false`, `null`
and `undefined` all count as missing, since the filter tests `!data[field]`),
and returns without effect otherwise. -/
theorem claim_C9_validateResponse (data : String → JsValue)
    (requiredFields : List String) (provider : String) :
    ((∃ e, validateResponse data requiredFields provider = .error e ∧
        e.provider = provider) ↔
      ∃ f ∈ requiredFields, (data f).truthy = false) ∧
    ((∀ f ∈ requiredFields, (data f).truthy = true) →
      validateResponse data requiredFields provider = .ok ()) := by
  classical
  by_cases hc :
      (requiredFields.filter (fun field => !(data field).truthy)).length > 0
  · have herr : validateResponse data requiredFields provider =
        .error ⟨"Missing required fields from " ++ provider ++ ": " ++
          joinComma (requiredFields.filter (fun field => !(data field).truthy)),
          provider, none⟩ := by
      simp only [validateResponse]
      rw [if_pos hc]
    have hex : ∃ f ∈ requiredFields, (data f).truthy = false := by
      have hne : requiredFields.filter (fun field => !(data field).truthy)
          ≠ [] := by
        intro h0
        rw [h0] at hc
        simp at hc
      obtain ⟨f, hf⟩ := List.exists_mem_of_ne_nil _ hne
      have hmem := List.mem_filter.mp hf
      refine ⟨f, hmem.1, ?_⟩
      simpa using hmem.2
    constructor
    · exact ⟨fun _ => hex, fun _ => ⟨_, herr, rfl⟩⟩
    · intro hall
      exfalso
      obtain ⟨f, hf, hfal⟩ := hex
      rw [hall f hf] at hfal
      simp at hfal
  · have hok : validateResponse data requiredFields provider = .ok () := by
      simp only [validateResponse]
      rw [if_neg hc]
    constructor
    · constructor
      · rintro ⟨e, he, -⟩
        rw [hok] at he
        exact absurd he (by simp)
      · rintro ⟨f, hf, hfal⟩
        exfalso
        have : f ∈ requiredFields.filter (fun field => !(data field).truthy) :=
          List.mem_filter.mpr ⟨hf, by simp [hfal]⟩
        have := List.length_pos.mpr (List.ne_nil_of_mem this)
        omega
    · intro _
      exact hok

/-- C9 witness: with field `price` having value `0` (present but falsy) the
validation rejects naming the provider; with every field truthy it
accepts. -/
theorem claim_C9_validateResponse_witness :
    (∃ e, validateResponse
        (fun f => if f = "price" then JsValue.num 0 else JsValue.num 5)
        (["price", "volume"]) ("coingecko") = .error e ∧
      e.provider = "coingecko") ∧
    validateResponse (fun _ => JsValue.num 5) (["price"]) ("coingecko")
      = .ok () :=
  ⟨(claim_C9_validateResponse
      (fun f => if f = "price" then JsValue.num 0 else JsValue.num 5)
      (["price", "volume"]) ("coingecko")).1.mpr
      ⟨"price", by decide, by decide⟩,
   (claim_C9_validateResponse (fun _ => JsValue.num 5) (["price"])
      ("coingecko")).2 (by decide)⟩

/-! ## Claim C6: retry executor invocation counts -/

/-- Exhaustion lemma for the retry loop: if every remaining invocation
fails, the loop performs exactly `remaining` invocations and throws a
`ProviderError` naming the provider. -/
theorem retryGo_exhaust (prov : String) (total : Nat) :
    ∀ (r : Nat) (outcomes : Nat → Except String α) (le : Option String),
      (∀ i, i < r → (outcomes i).isOk = false) →
      ∃ e, retryGo prov total outcomes r le = (r, .error e) ∧
        e.provider = prov := by
  intro r
  induction r with
  | zero =>
      intro outcomes le _
      exact ⟨_, rfl, rfl⟩
  | succ r' ih =>
      intro outcomes le h
      have h0 := h 0 (Nat.succ_pos r')
      match hout : outcomes 0 with
      | .ok v => rw [hout] at h0; simp [Except.isOk, Except.toBool] at h0
      | .error e =>
          obtain ⟨e', heq, hp⟩ := ih (fun i => outcomes (i + 1)) (some e)
            (fun i hi => h (i + 1) (Nat.succ_lt_succ hi))
          refine ⟨e', ?_, hp⟩
          simp only [retryGo, hout, heq]

/-- Success lemma for the retry loop: if the first `k - 1` invocations fail
and the `k`-th succeeds with `v` (for `k` within the remaining budget), the
loop performs exactly `k` invocations and returns `v`. -/
theorem retryGo_succeed (prov : String) (total : Nat) :
    ∀ (k : Nat) (outcomes : Nat → Except String α) (r : Nat)
      (le : Option String) (v : α),
      1 ≤ k → k ≤ r →
      (∀ i, i < k - 1 → (outcomes i).isOk = false) →
      outcomes (k - 1) = .ok v →
      retryGo prov total outcomes r le = (k, .ok v) := by
  intro k
  induction k with
  | zero => intro _ _ _ _ h1; omega
  | succ k' ih =>
      intro outcomes r le v _ hkr hfail hsucc
      match r, hkr with
      | r'' + 1, _ =>
        by_cases hk0 : k' = 0
        · subst hk0
          simp only [Nat.add_sub_cancel] at hsucc
          simp [retryGo, hsucc]
        · have hk1 : 1 ≤ k' := Nat.one_le_iff_ne_zero.mpr hk0
          have h0 := hfail 0 (by omega)
          match hout : outcomes 0 with
          | .ok w => rw [hout] at h0; simp [Except.isOk, Except.toBool] at h0
          | .error e =>
              have hrec := ih (fun i => outcomes (i + 1)) r'' (some e) v hk1
                (by omega)
                (by
                  intro i hi
                  exact hfail (i + 1) (by omega))
                (by
                  have : k' - 1 + 1 = k' := by omega
                  simp only [this]
                  simpa using hsucc)
              simp only [retryGo, hout, hrec]

/-- C6: for an operation failing its first `k - 1` invocations and
succeeding on the `k`-th with `k ≤ maxRetries`, `fetchWithRetry` returns the
success value after exactly `k` invocations; for an operation failing every
invocation it throws a `ProviderError` (naming the provider) after exactly
`maxRetries` invocations. -/
theorem claim_C6_retry (outcomes : Nat → Except String α)
    (config : RetryConfig) (providerName : String) (k : Nat) (v : α) :
    (1 ≤ k → k ≤ config.maxRetries →
      (∀ i, i < k - 1 → (outcomes i).isOk = false) →
      outcomes (k - 1) = .ok v →
      fetchWithRetry outcomes config providerName = (k, .ok v)) ∧
    ((∀ i, i < config.maxRetries → (outcomes i).isOk = false) →
      ∃ e, fetchWithRetry outcomes config providerName =
        (config.maxRetries, .error e) ∧ e.provider = providerName) := by
  constructor
  · intro h1 h2 h3 h4
    exact retryGo_succeed providerName config.maxRetries k outcomes
      config.maxRetries none v h1 h2 h3 h4
  · intro h
    exact retryGo_exhaust providerName config.maxRetries config.maxRetries
      outcomes none h

/-- C6 witness: an operation failing once then succeeding returns after
exactly 2 invocations; an always-failing operation throws after exactly 3 of
3 invocations. -/
theorem claim_C6_retry_witness :
    fetchWithRetry
        (fun i => if i < 1 then Except.error "boom" else Except.ok (42 : Nat))
        ⟨3, 1000, 10000⟩ ("coingecko") = (2, .ok 42) ∧
    ∃ e, fetchWithRetry (fun _ => (Except.error "boom" : Except String Nat))
        ⟨3, 1000, 10000⟩ ("coingecko") = (3, .error e) ∧
      e.provider = "coingecko" :=
  ⟨(claim_C6_retry
      (fun i => if i < 1 then Except.error "boom" else Except.ok (42 : Nat))
      ⟨3, 1000, 10000⟩ ("coingecko") 2 42).1 (by decide) (by decide)
      (by
        intro i hi
        have : i = 0 := by omega
        subst this
        rfl)
      (by rfl),
   (claim_C6_retry (fun _ => (Except.error "boom" : Except String Nat))
      ⟨3, 1000, 10000⟩ ("coingecko") 0 42).2 (fun _ _ => rfl)⟩

/-! ## Claim C10: cache-hit short-circuit only for truthy cached values -/

/-- C10: when the cached value for `` `${symbol}-${method}` `` is falsy (a
miss, or a stored falsy value such as `null` or `0`), `aggregateData` does
not short-circuit: it performs the provider fan-out, stores the merged
result, and returns it. -/
theorem claim_C10_falsy_refetch (agg : EnhancedAggregator) (now : Int)
    (symbol method : String) (fanOut : List (Option JsValue))
    (mergeStrategy : List (Option JsValue) → JsValue)
    (h : ∀ v, (agg.cache.get now (symbol ++ "-" ++ method)).1 = some v →
      v.truthy = false) :
    aggregateData agg now symbol method fanOut mergeStrategy =
      (mergeStrategy fanOut,
       ⟨agg.providerNames,
        ((agg.cache.get now (symbol ++ "-" ++ method)).2).set now
          (symbol ++ "-" ++ method) (mergeStrategy fanOut)⟩,
       true) := by
  match hp : agg.cache.get now (symbol ++ "-" ++ method) with
  | (none, cache1) =>
      simp [aggregateData, hp]
  | (some v, cache1) =>
      have hv : v.truthy = false := h v (by rw [hp])
      simp [aggregateData, hp, hv]

/-- C10 witness: the cache holds `0` (falsy) for `BTC-getMarketData`; the
call re-fetches, merges `7` and re-stores it instead of returning `0`. -/
theorem claim_C10_falsy_refetch_witness :
    aggregateData
      (⟨["coingecko"],
        ⟨[("BTC-getMarketData", ⟨JsValue.num 0, 0, 100⟩)], ⟨100, 10⟩⟩⟩ :
          EnhancedAggregator) 1 ("BTC") ("getMarketData")
      ([some (JsValue.num 7)])
      (fun rs => match rs with
        | some v :: _ => v
        | _ => JsValue.null) =
    (JsValue.num 7,
     ⟨["coingecko"],
      (((⟨["coingecko"],
        ⟨[("BTC-getMarketData", ⟨JsValue.num 0, 0, 100⟩)], ⟨100, 10⟩⟩⟩ :
          EnhancedAggregator)).cache.get 1
            ("BTC" ++ "-" ++ "getMarketData")).2.set 1
        ("BTC" ++ "-" ++ "getMarketData") (JsValue.num 7)⟩,
     true) :=
  claim_C10_falsy_refetch
    (⟨["coingecko"],
      ⟨[("BTC-getMarketData", ⟨JsValue.num 0, 0, 100⟩)], ⟨100, 10⟩⟩⟩ :
        EnhancedAggregator) 1 ("BTC") ("getMarketData")
    ([some (JsValue.num 7)])
    (fun rs => match rs with
      | some v :: _ => v
      | _ => JsValue.null)
    (by
      intro v hv
      have h0 : (((⟨["coingecko"],
          ⟨[("BTC-getMarketData", ⟨JsValue.num 0, 0, 100⟩)], ⟨100, 10⟩⟩⟩ :
            EnhancedAggregator)).cache.get 1
              ("BTC" ++ "-" ++ "getMarketData")).1
          = some (JsValue.num 0) := rfl
      rw [h0] at hv
      injection hv with h1
      rw [← h1]
      rfl)

/-! ## Claim C5: construction-time validation -/

/-- C5 counterexample.  The claim states that constructing the aggregator
with zero adapters, or the cache with `ttl ≤ 0` or `maxSize ≤ 0`, throws a
`ConfigurationError`.  No such validation exists: both constructors succeed
on exactly those inputs (zero providers registered; `ttl = 0`,
`maxSize = 0`). -/
theorem claim_C5_counterexample :
    (∃ agg, constructAggregator ⟨60000, 100, 1000, false, false⟩ =
        .ok agg ∧ agg.providerNames = []) ∧
    (CacheManager.construct (α := JsValue) ⟨0, 0⟩).isOk = true := by
  exact ⟨⟨_, rfl, rfl⟩, rfl⟩

/-- C5 amended: neither constructor ever throws — misconfiguration (zero
adapters, nonpositive ttl or maxSize) is accepted silently; no
`ConfigurationError` is raised anywhere at construction time. -/
theorem claim_C5_amended (α : Type) (config : AggregatorConfig)
    (cacheConfig : CacheConfig) :
    (constructAggregator config).isOk = true ∧
    (CacheManager.construct (α := α) cacheConfig).isOk = true :=
  ⟨rfl, rfl⟩

/-! ## Claim C1: status derivation of `fetchTokenData` -/

/-- C1 counterexample.  The claim states `status = error` iff none of the
fetches succeeded, but the code computes
`errors.length === 0 ? "success" : "partial"`: with all three settled
fetches failing, the status is `partial`, never `error`. -/
theorem claim_C1_counterexample :
    (fetchTokenData ("BTC") 0 (.error "a") (.error "b")
      (.error "c")).status = FetchStatus.mixed ∧
    (fetchTokenData ("BTC") 0 (.error "a") (.error "b")
      (.error "c")).status ≠ FetchStatus.error := by
  exact ⟨rfl, by decide⟩

/-- C1 amended: `status = success` iff zero fetch errors, `status = partial`
iff at least one of the three settled fetches failed (regardless of whether
any succeeded), and `status = error` is unreachable: `Promise.allSettled`
never rejects and the un-awaited async `getOnChainMetrics` call returns a
Promise instead of throwing synchronously, so the `catch` block that alone
produces "error" can never run. -/
theorem claim_C1_amended (symbol : String) (ts : Int)
    (mr : Except String MarketData)
    (tr : Except String TechnicalIndicators)
    (sr : Except String SocialMetrics) :
    ((fetchTokenData symbol ts mr tr sr).status = FetchStatus.success ↔
      mr.isOk = true ∧ tr.isOk = true ∧ sr.isOk = true) ∧
    ((fetchTokenData symbol ts mr tr sr).status = FetchStatus.mixed ↔
      (mr.isOk = false ∨ tr.isOk = false ∨ sr.isOk = false)) ∧
    (fetchTokenData symbol ts mr tr sr).status ≠ FetchStatus.error := by
  cases mr <;> cases tr <;> cases sr <;>
    simp [fetchTokenData, Except.isOk, Except.toBool]

/-- C1 amended witness: one failing fetch yields status `partial`. -/
theorem claim_C1_amended_witness :
    (fetchTokenData ("BTC") 0 (.ok (defaultMarket ("BTC") 0)) (.error "b")
      (.ok (defaultSocial ("BTC") 0))).status = FetchStatus.mixed :=
  (claim_C1_amended ("BTC") 0 (.ok (defaultMarket ("BTC") 0)) (.error "b")
    (.ok (defaultSocial ("BTC") 0))).2.1.mpr (Or.inr (Or.inl rfl))

/-! ## Claim C2: the `onChain` field and the never-throws contract -/

/-- C2 (code bug).  `fetchTokenData` does always return without throwing
(the embedding has no exception channel because the `try` block cannot
throw), and `market`, `technical` and `social` are populated records — but
the claimed "fully populated `onChain` record" is false: line 75 assigns
the un-awaited Promise of the async `getOnChainMetrics` call, so the
returned `onChain` field holds a pending Promise, not a record,
contradicting the declared type `ComprehensiveAnalysis.onChain:
OnChainMetrics`.  This theorem evaluates the embedded code at the failing
input (all fetches succeeding): `onChain` is the pending Promise and not a
populated record. -/
theorem claim_C2_onChain_pending :
    (fetchTokenData ("BTC") 0 (.ok (defaultMarket ("BTC") 0))
      (.ok (defaultTechnical ("BTC") 0))
      (.ok (defaultSocial ("BTC") 0))).onChain =
      OnChainValue.pending "BTC" ∧
    ((fetchTokenData ("BTC") 0 (.ok (defaultMarket ("BTC") 0))
      (.ok (defaultTechnical ("BTC") 0))
      (.ok (defaultSocial ("BTC") 0))).onChain).isRecord = false := by
  exact ⟨rfl, rfl⟩

/-! ## Claim C3: rate limiter spacing and FIFO order -/

/-- C3 counterexample.  `acquire()` computes `timeToWait` from the value of
`lastRequest` read at call time, which is stale for callers that arrive
while earlier callers are still waiting.  With `minInterval = 10`, one call
at instant 0 (dispatched at 0) and two calls arriving at instant 1, both
waiting callers read `lastRequest = 0` and wait 9: dispatches are 0, 10 and
19, and the gap between the last two is 9 < 10. -/
theorem claim_C3_counterexample :
    RateLimiter.run 10 [0, 1, 1] = [0, 10, 19] ∧ 19 - 10 < 10 := by
  exact ⟨rfl, by norm_num⟩

/-- C3 amended: dispatch order always equals arrival order (each `acquire`
appends a dispatch no earlier than the previous one), and the
`minInterval` spacing holds for a caller that arrives strictly after every
earlier dispatch (sequential callers); concurrent queued callers are the
counterexample case. -/
theorem claim_C3_amended (d : Nat) (ds : List Nat) (t : Nat) :
    (List.Chain' (· ≤ ·) ds →
      List.Chain' (· ≤ ·) (RateLimiter.step d ds t)) ∧
    (∀ L, ds.getLast? = some L → (∀ x ∈ ds, x ≤ L) → L < t →
      ∃ D, (RateLimiter.step d ds t).getLast? = some D ∧ L + d ≤ D) := by
  constructor
  · intro hchain
    unfold RateLimiter.step
    rw [List.chain'_append]
    refine ⟨hchain, List.chain'_singleton _, ?_⟩
    intro x hx y hy
    simp only [List.head?_cons, Option.mem_def, Option.some.injEq] at hy
    subst hy
    have hxle : x ≤ ds.getLast?.getD 0 := by
      rw [Option.mem_def] at hx
      simp [hx]
    calc x ≤ ds.getLast?.getD 0 := hxle
      _ ≤ max t (ds.getLast?.getD 0) := le_max_right _ _
      _ ≤ max t (ds.getLast?.getD 0) + _ := Nat.le_add_right _ _
  · intro L hL hall hlt
    have hfilter : ds.filter (fun x => decide (x < t)) = ds :=
      List.filter_eq_self.mpr
        (fun x hx => by simpa using Nat.lt_of_le_of_lt (hall x hx) hlt)
    have hseen : RateLimiter.lastSeen ds t = some L := by
      unfold RateLimiter.lastSeen
      rw [hfilter, hL]
    refine ⟨max t (ds.getLast?.getD 0) + (L + d - t), ?_, ?_⟩
    · unfold RateLimiter.step
      rw [hseen]
      exact List.getLast?_concat _
    · rw [hL]
      simp only [Option.getD_some]
      have hmax : max t L = t := Nat.max_eq_left (le_of_lt hlt)
      rw [hmax]
      omega

/-- C3 amended witness: after a dispatch at 0, a caller arriving at 5 with
`minInterval = 10` is dispatched at a time ≥ 10, and the run stays in
order. -/
theorem claim_C3_amended_witness :
    List.Chain' (· ≤ ·) (RateLimiter.step 10 [0] 5) ∧
    ∃ D, (RateLimiter.step 10 [0] 5).getLast? = some D ∧ 0 + 10 ≤ D :=
  ⟨(claim_C3_amended 10 [0] 5).1 (by simp),
   (claim_C3_amended 10 [0] 5).2 0 (by decide) (by decide) (by decide)⟩

end Liqubit
